import Mathlib

/-
Verification of the address-usage scanner (main.go).

The program derives child addresses of an account xpub over an index
range, asks a remote dcrd node which of them were ever used, and reports
used/unused counts, optionally bucketed into fixed-size windows.  The
core is usage.branchStats; usage.stats drives it once per branch, and
main performs flag validation and setup before running stats.

The embedding below translates branchStats, stats and main directly from
the source.  All counters in branchStats (n, begin, bucket, the loop
variables i, j, max, the counts used/unused and the running totals) are
Go uint32 values, so arithmetic that can wrap is taken modulo 2^32.  The
external collaborators (hdkeychain child derivation, address encoding,
and the UsedAddresses RPC) enter as an explicit environment of pure
functions; RPC and encoding failures are Option none results.  The
window loop is written with explicit fuel because for some parameter
values the Go loop genuinely never terminates (see claimC10).
-/

set_option maxHeartbeats 1000000

namespace Addrusage

/-- Modulus of Go uint32 arithmetic. -/
def W : Nat := 4294967296

/-- Outcome of the hdkeychain child derivation branchKey.Child(j): a
child key, the recoverable hdkeychain.ErrInvalidChild, or any other
(fatal) error. -/
inductive ChildOutcome (κ : Type) where
  | ok (k : κ)
  | invalidChild
  | err
  deriving DecidableEq

/-- The external collaborators branchStats interacts with for one
branch.  branchFail models u.xpub.Child(branch) failing; child models
branchKey.Child(j); addr models u.addr (address encoding), with none a
fatal encoding error; query models u.rpc.UsedAddresses, returning the
usage bitset as a function of bit position, with none a transport or
protocol error. -/
structure Env (κ α : Type) where
  branchFail : Bool
  child : Nat → ChildOutcome κ
  addr : κ → Option α
  query : List α → Option (Nat → Bool)

variable {κ α : Type}

/-- Inner loop of branchStats over the indices of one window: on
hdkeychain.ErrInvalidChild the index is skipped with continue; on any
other derivation error or encoding error the whole scan aborts (none);
otherwise the encoded address is appended in index order. -/
def buildAddrs (env : Env κ α) : List Nat → Option (List α)
  | [] => some []
  | j :: js =>
    match env.child j with
    | .invalidChild => buildAddrs env js
    | .err => none
    | .ok k =>
      match env.addr k with
      | none => none
      | some a => (buildAddrs env js).map (fun l => a :: l)

/-- Bitset fold of branchStats: for j := range addrs, a set bit counts
as used and a clear bit as unused.  The counts are uint32 in the source
but cannot wrap: they are bounded by the window length, which is below
2^32. -/
def countUsage (bits : Nat → Bool) (k : Nat) : Nat × Nat :=
  (List.range k).foldl
    (fun p j => if bits j then (p.1 + 1, p.2) else (p.1, p.2 + 1)) (0, 0)

/-- Result of processing one window: fatal covers derivation/encoding
errors and UsedAddresses failures, ok carries the used and unused counts
and the address batch that was queried. -/
inductive StepOut (α : Type) where
  | fatal
  | ok (used unused : Nat) (batch : List α)
  deriving DecidableEq

/-- One window [lo, hi) of branchStats: build the address batch,
issue the UsedAddresses query with that batch, and fold the returned
bitset into used/unused counts. -/
def windowStep (env : Env κ α) (lo hi : Nat) : StepOut α :=
  match buildAddrs env (List.range' lo (hi - lo)) with
  | none => .fatal
  | some l =>
    match env.query l with
    | none => .fatal
    | some bits =>
      let c := countUsage bits l.length
      .ok c.1 c.2 l

/-- Final state of a branch scan.  fatal: an error was returned.  done
carries the uint32 running totals, lines (the per-window Printf lines
actually emitted, as (i, max, used, unused)), calls (the address batches
passed to UsedAddresses, in order), and wins (every processed window
with its counts, recorded whether or not its line was printed). -/
inductive ScanOut (α : Type) where
  | fatal
  | done (totalUsed totalUnused : Nat)
      (lines : List (Nat × Nat × Nat × Nat))
      (calls : List (List α))
      (wins : List (Nat × Nat × Nat × Nat))
  deriving DecidableEq

/-- The window loop of branchStats, translated clause by clause:
i advances by i += bucket in uint32 arithmetic; max is i + bucket in
uint32 arithmetic, clamped to n; the totals accumulate in uint32
arithmetic; the per-window line is skipped exactly when bucket == n.
fuel bounds the number of iterations; none means the fuel was exhausted
before the loop exited (the source loop has no such bound and simply
keeps running). -/
def scanLoop (env : Env κ α) (n bucket : Nat) :
    Nat → Nat → Nat → Nat →
    List (Nat × Nat × Nat × Nat) → List (List α) →
    List (Nat × Nat × Nat × Nat) → Option (ScanOut α)
  | 0, _, _, _, _, _, _ => none
  | fuel + 1, i, tu, tun, lines, calls, wins =>
    if i < n then
      match windowStep env i
          (if (i + bucket) % W > n then n else (i + bucket) % W) with
      | .fatal => some .fatal
      | .ok u v l =>
        scanLoop env n bucket fuel ((i + bucket) % W)
          ((tu + u) % W) ((tun + v) % W)
          (if bucket = n then lines
           else lines ++
             [(i, if (i + bucket) % W > n then n else (i + bucket) % W, u, v)])
          (calls ++ [l])
          (wins ++
            [(i, if (i + bucket) % W > n then n else (i + bucket) % W, u, v)])
    else
      some (.done tu tun lines calls wins)

/-- usage.branchStats for one branch: derive the branch key (branchFail
models u.xpub.Child(branch) failing), collapse bucket 0 to n, and run
the window loop from begin.  Fuel n + 1 is enough for every terminating
execution of the source loop: a non-wrapping loop takes at most n
iterations (each adds bucket >= 1 to i), so a none result means the
source loop runs forever. -/
def branchStats (env : Env κ α) (n begin bucket : Nat) :
    Option (ScanOut α) :=
  if env.branchFail then some .fatal
  else
    scanLoop env n (if bucket = 0 then n else bucket) (n + 1)
      begin 0 0 [] [] []

/-- The flag configuration main validates before dialing.  The Bool
fields record whether the corresponding fallible setup step succeeds:
xpubGiven is -xpub being nonempty, xpubOk is hdkeychain.NewKeyFromString
succeeding, tlsOk is tlsConfig succeeding, dialOk is wsrpc.Dial
succeeding. -/
structure Config where
  external : Nat
  internal : Nat
  externalStart : Nat
  internalStart : Nat
  bucketsize : Nat
  xpubGiven : Bool
  xpubOk : Bool
  tlsOk : Bool
  dialOk : Bool

/-- Classifies a branch scan result for stats: none if the scan never
terminates, some false if it returned an error, some true otherwise. -/
def branchOutcome (r : Option (ScanOut α)) : Option Bool :=
  match r with
  | none => none
  | some .fatal => some false
  | some (.done _ _ _ _ _) => some true

/-- usage.stats: run branchStats on the external branch (branch index 0)
when external is nonzero, then on the internal branch (branch index 1)
when internal is nonzero, returning the first error.  envE and envI are
the collaborator environments of the two branches. -/
def statsRun (cfg : Config) (envE envI : Env κ α) : Option Bool :=
  match (if cfg.external ≠ 0 then
          branchOutcome
            (branchStats envE cfg.external cfg.externalStart cfg.bucketsize)
         else some true) with
  | none => none
  | some false => some false
  | some true =>
    if cfg.internal ≠ 0 then
      branchOutcome
        (branchStats envI cfg.internal cfg.internalStart cfg.bucketsize)
    else some true

/-- main: each flag-validation or setup failure calls log.Fatal, which
exits the process with status 1.  After setup succeeds, main runs
u.stats(ctx) and DISCARDS its result (the error return on line 85 of
main.go is not checked), closes the connection and returns, so the
process exits with status 0 whether or not the scan returned an error.
none models a scan that never terminates (no exit happens). -/
def mainExit (cfg : Config) (envE envI : Env κ α) : Option Nat :=
  if cfg.external = 0 && cfg.internal = 0 then some 1
  else if cfg.externalStart > cfg.external then some 1
  else if cfg.internalStart > cfg.internal then some 1
  else if !cfg.xpubGiven then some 1
  else if !cfg.xpubOk then some 1
  else if !cfg.tlsOk then some 1
  else if !cfg.dialOk then some 1
  else
    match statsRun cfg envE envI with
    | none => none
    | some _ => some 0

/-- Go float64 division a / b as printed by the %f verbs of branchStats:
a defined rational when the denominator is nonzero, and none for the
non-finite (NaN or infinite) result of a zero denominator.  IEEE float
division never panics, so a zero denominator is not a crash. -/
def ratioQ (a b : Nat) : Option ℚ :=
  if b = 0 then none else some ((a : ℚ) / b)

/-- True when branchKey.Child(j) classifies index j as a skipped
invalid child. -/
def isSkip : ChildOutcome κ → Bool
  | .invalidChild => true
  | _ => false

/-- Number of indices in [lo, hi) not classified ErrInvalidChild. -/
def countValid (env : Env κ α) (lo hi : Nat) : Nat :=
  ((List.range' lo (hi - lo)).filter
    (fun j => !isSkip (env.child j))).length

/-- Branch totals of a completed scan, none when the scan failed or
never terminated. -/
def doneTotals : Option (ScanOut α) → Option (Nat × Nat)
  | some (.done tu tun _ _ _) => some (tu, tun)
  | _ => none

/-- Whether index j is fatal for the scan: child derivation fails with
a non-InvalidChild error, or address encoding fails. -/
def fatalAt (childF : Nat → ChildOutcome κ) (addrF : κ → Option α)
    (j : Nat) : Bool :=
  match childF j with
  | .err => true
  | .ok k => (addrF k).isNone
  | .invalidChild => false

/-- The address batch the scan builds for an index list, absent fatal
indices: invalid children are skipped, the rest map to their encoded
addresses. -/
def batchOf (childF : Nat → ChildOutcome κ) (addrF : κ → Option α)
    (R : List Nat) : List α :=
  R.filterMap (fun j =>
    match childF j with
    | .ok k => addrF k
    | _ => none)

/-- Environment of a remote service with a fixed per-address usage
assignment usedOf: bit j of every query response tells whether batch
element j satisfies usedOf, so the bitset is positional over the
submitted batch. -/
def oracleEnv (childF : Nat → ChildOutcome κ) (addrF : κ → Option α)
    (usedOf : α → Bool) : Env κ α where
  branchFail := false
  child := childF
  addr := addrF
  query := fun l => some (fun j => ((l.get? j).map usedOf).getD false)

/-- Environment where every child derivation succeeds, the encoded
address is the index itself, and usage follows the fixed assignment
usedOf. -/
def okEnv (usedOf : Nat → Bool) : Env Nat Nat :=
  oracleEnv ChildOutcome.ok some usedOf

/-- Environment in which every index is an invalid child; the query
answers any batch with an all-clear bitset. -/
def envInv : Env Nat Nat where
  branchFail := false
  child := fun _ => .invalidChild
  addr := fun k => some k
  query := fun _ => some (fun _ => false)

/-- Environment in which every child derivation fails with a fatal
(non-InvalidChild) error. -/
def envChildErr : Env Nat Nat where
  branchFail := false
  child := fun _ => .err
  addr := fun k => some k
  query := fun _ => some (fun _ => false)

/-- Environment in which child derivation succeeds but address encoding
fails. -/
def envAddrNone : Env Nat Nat where
  branchFail := false
  child := ChildOutcome.ok
  addr := fun _ => none
  query := fun _ => some (fun _ => false)

/-- Environment in which the UsedAddresses query always fails with a
transport error. -/
def envQueryErr : Env Nat Nat where
  branchFail := false
  child := ChildOutcome.ok
  addr := fun k => some k
  query := fun _ => none

/-- Environment whose query reports exactly batch position 0 as used. -/
def envW5 : Env Nat Nat where
  branchFail := false
  child := ChildOutcome.ok
  addr := fun k => some k
  query := fun _ => some (fun j => j == 0)

/-- A flag configuration that passes every validation in main and scans
one external address. -/
def cfgBad : Config := ⟨1, 0, 0, 0, 0, true, true, true, true⟩

lemma countUsage_succ (bits : Nat → Bool) (k : Nat) :
    countUsage bits (k + 1) =
      (if bits k then ((countUsage bits k).1 + 1, (countUsage bits k).2)
       else ((countUsage bits k).1, (countUsage bits k).2 + 1)) := by
  simp only [countUsage, List.range_succ, List.foldl_append, List.foldl_cons,
    List.foldl_nil]

lemma countUsage_sum (bits : Nat → Bool) (k : Nat) :
    (countUsage bits k).1 + (countUsage bits k).2 = k := by
  induction k with
  | zero => rfl
  | succ k ih =>
    rw [countUsage_succ]
    by_cases h : bits k <;> simp [h] <;> omega

lemma countUsage_fst (bits : Nat → Bool) (k : Nat) :
    (countUsage bits k).1 = (List.range k).countP bits := by
  induction k with
  | zero => rfl
  | succ k ih =>
    rw [countUsage_succ, List.range_succ, List.countP_append]
    by_cases h : bits k <;> simp [h, ih, List.countP_cons]

lemma countUsage_congr (bits bits' : Nat → Bool) (k : Nat)
    (h : ∀ j, j < k → bits j = bits' j) :
    countUsage bits k = countUsage bits' k := by
  induction k with
  | zero => rfl
  | succ k ih =>
    rw [countUsage_succ, countUsage_succ,
      ih (fun j hj => h j (Nat.lt_succ_of_lt hj)), h k (Nat.lt_succ_self k)]

lemma countUsage_false (k : Nat) :
    countUsage (fun _ => false) k = (0, k) := by
  induction k with
  | zero => rfl
  | succ k ih => rw [countUsage_succ, ih]; simp

lemma rangeCountP (p : α → Bool) (l : List α) :
    (List.range l.length).countP
      (fun j => ((l.get? j).map p).getD false) = l.countP p := by
  induction l with
  | nil => rfl
  | cons a t ih =>
    rw [List.length_cons, List.range_succ_eq_map, List.countP_cons,
      List.countP_map, List.countP_cons]
    have h1 : ((((a :: t).get? 0).map p).getD false) = p a := rfl
    have h2 : ((fun j => (((a :: t).get? j).map p).getD false) ∘ Nat.succ)
        = fun j => ((t.get? j).map p).getD false := by
      funext j; rfl
    rw [h1, h2, ih]

lemma countUsage_getD (p : α → Bool) (l : List α) :
    countUsage (fun j => ((l.get? j).map p).getD false) l.length
      = (l.countP p, l.length - l.countP p) := by
  have hf := countUsage_fst (fun j => ((l.get? j).map p).getD false) l.length
  have hs := countUsage_sum (fun j => ((l.get? j).map p).getD false) l.length
  rw [rangeCountP] at hf
  have hsnd : (countUsage (fun j => ((l.get? j).map p).getD false)
      l.length).2 = l.length - l.countP p := by omega
  exact Prod.ext hf hsnd

lemma buildAddrs_length (env : Env κ α) (R : List Nat) (l : List α)
    (h : buildAddrs env R = some l) :
    l.length = (R.filter (fun j => !isSkip (env.child j))).length := by
  induction R generalizing l with
  | nil =>
    simp only [buildAddrs, Option.some_inj] at h
    subst h; rfl
  | cons j js ih =>
    rcases hc : env.child j with k | _ | _ <;>
      simp only [buildAddrs, hc] at h
    · rcases ha : env.addr k with _ | a <;> rw [ha] at h
      · exact absurd h (by simp)
      · rcases Option.map_eq_some'.mp h with ⟨l', hl', rfl⟩
        simp [List.filter_cons, hc, isSkip, ih l' hl']
    · simp [List.filter_cons, hc, isSkip, ih l h]
    · exact absurd h (by simp)

lemma buildAddrs_of_noFatal (env : Env κ α) (R : List Nat)
    (h : ∀ j ∈ R, fatalAt env.child env.addr j = false) :
    buildAddrs env R = some (batchOf env.child env.addr R) := by
  induction R with
  | nil => rfl
  | cons j js ih =>
    have hj := h j (List.mem_cons_self j js)
    have hjs : ∀ x ∈ js, fatalAt env.child env.addr x = false :=
      fun x hx => h x (List.mem_cons_of_mem j hx)
    rcases hc : env.child j with k | _ | _
    · rcases ha : env.addr k with _ | a
      · simp [fatalAt, hc, ha] at hj
      · simp [buildAddrs, hc, ha, batchOf, List.filterMap_cons, ih hjs]
    · simp [buildAddrs, hc, batchOf, List.filterMap_cons, ih hjs]
    · rw [fatalAt, hc] at hj; exact absurd hj (by simp)

lemma batchOf_ok (R : List Nat) :
    batchOf ChildOutcome.ok some R = R := by
  induction R with
  | nil => rfl
  | cons j js ih =>
    simp only [batchOf, List.filterMap_cons] at ih ⊢
    rw [ih]

lemma range'_split (lo mid hi : Nat) (h1 : lo ≤ mid) (h2 : mid ≤ hi) :
    List.range' lo (hi - lo) =
      List.range' lo (mid - lo) ++ List.range' mid (hi - mid) := by
  have hn : (hi - mid) + (mid - lo) = hi - lo := by omega
  rw [← hn, ← List.range'_append]
  have hm : lo + 1 * (mid - lo) = mid := by omega
  rw [hm]

lemma countValid_le (env : Env κ α) (lo hi : Nat) :
    countValid env lo hi ≤ hi - lo := by
  have := List.length_filter_le
    (fun j => !isSkip (env.child j)) (List.range' lo (hi - lo))
  rw [List.length_range'] at this
  exact this

lemma countValid_split (env : Env κ α) (lo mid hi : Nat)
    (h1 : lo ≤ mid) (h2 : mid ≤ hi) :
    countValid env lo hi = countValid env lo mid + countValid env mid hi := by
  rw [countValid, range'_split lo mid hi h1 h2, List.filter_append,
    List.length_append, countValid, countValid]

lemma countValid_ok (p : Nat → Bool) (lo hi : Nat) :
    countValid (okEnv p) lo hi = hi - lo := by
  rw [countValid]
  have : ∀ j : Nat, (!isSkip ((okEnv p).child j)) = true := fun j => rfl
  rw [List.filter_eq_self.mpr (fun a _ => this a), List.length_range']

lemma countValid_nil (env : Env κ α) (lo hi : Nat) (h : hi ≤ lo) :
    countValid env lo hi = 0 := by
  rw [countValid, Nat.sub_eq_zero_of_le h]
  rfl

lemma countP_false_eq (l : List α) : l.countP (fun _ => false) = 0 := by
  induction l with
  | nil => rfl
  | cons a t ih => rw [List.countP_cons, ih]; simp

lemma windowStep_ok (env : Env κ α) (lo hi u v : Nat) (l : List α)
    (h : windowStep env lo hi = .ok u v l) :
    buildAddrs env (List.range' lo (hi - lo)) = some l ∧
    ∃ bits, env.query l = some bits ∧
      u = (countUsage bits l.length).1 ∧ v = (countUsage bits l.length).2 := by
  unfold windowStep at h
  split at h
  · exact absurd h (by simp)
  · rename_i l' hb
    split at h
    · exact absurd h (by simp)
    · rename_i bits hq
      simp only [StepOut.ok.injEq] at h
      obtain ⟨hu, hv, rfl⟩ := h
      exact ⟨hb, bits, hq, hu.symm, hv.symm⟩

lemma windowStep_counts (env : Env κ α) (lo hi u v : Nat) (l : List α)
    (h : windowStep env lo hi = .ok u v l) :
    u + v = l.length ∧ u + v = countValid env lo hi := by
  obtain ⟨hb, bits, _, hu, hv⟩ := windowStep_ok env lo hi u v l h
  have hsum := countUsage_sum bits l.length
  have hlen := buildAddrs_length env _ l hb
  rw [← hu, ← hv] at hsum
  exact ⟨hsum, by rw [hsum, hlen]; rfl⟩

lemma windowStep_oracle (childF : Nat → ChildOutcome κ)
    (addrF : κ → Option α) (p : α → Bool) (lo hi : Nat)
    (h : ∀ j ∈ List.range' lo (hi - lo), fatalAt childF addrF j = false) :
    windowStep (oracleEnv childF addrF p) lo hi =
      .ok ((batchOf childF addrF (List.range' lo (hi - lo))).countP p)
        ((batchOf childF addrF (List.range' lo (hi - lo))).length -
          (batchOf childF addrF (List.range' lo (hi - lo))).countP p)
        (batchOf childF addrF (List.range' lo (hi - lo))) := by
  unfold windowStep
  rw [buildAddrs_of_noFatal (oracleEnv childF addrF p) _ h]
  show (match (oracleEnv childF addrF p).query
      (batchOf childF addrF (List.range' lo (hi - lo))) with
    | none => StepOut.fatal
    | some bits => _) = _
  rw [show (oracleEnv childF addrF p).query
      (batchOf childF addrF (List.range' lo (hi - lo))) =
      some (fun j => (((batchOf childF addrF
        (List.range' lo (hi - lo))).get? j).map p).getD false) from rfl]
  simp only [countUsage_getD]
  rfl

lemma windowStep_okEnv (p : Nat → Bool) (lo hi : Nat) :
    windowStep (okEnv p) lo hi =
      .ok ((List.range' lo (hi - lo)).countP p)
        ((hi - lo) - (List.range' lo (hi - lo)).countP p)
        (List.range' lo (hi - lo)) := by
  have h := windowStep_oracle ChildOutcome.ok some p lo hi
    (fun j _ => rfl)
  rw [batchOf_ok, List.length_range'] at h
  exact h

lemma scanLoop_zero (env : Env κ α) (n b i tu tun : Nat)
    (L Ws : List (Nat × Nat × Nat × Nat)) (C : List (List α)) :
    scanLoop env n b 0 i tu tun L C Ws = none := rfl

lemma scanLoop_succ (env : Env κ α) (n b f i tu tun : Nat)
    (L Ws : List (Nat × Nat × Nat × Nat)) (C : List (List α)) :
    scanLoop env n b (f + 1) i tu tun L C Ws =
      if i < n then
        match windowStep env i
            (if (i + b) % W > n then n else (i + b) % W) with
        | .fatal => some .fatal
        | .ok u v l =>
          scanLoop env n b f ((i + b) % W)
            ((tu + u) % W) ((tun + v) % W)
            (if b = n then L
             else L ++ [(i, if (i + b) % W > n then n else (i + b) % W, u, v)])
            (C ++ [l])
            (Ws ++ [(i, if (i + b) % W > n then n else (i + b) % W, u, v)])
      else some (.done tu tun L C Ws) := rfl

lemma scanLoop_step_done (env : Env κ α) (n b f i tu tun : Nat)
    (L Ws : List (Nat × Nat × Nat × Nat)) (C : List (List α))
    (hin : ¬ i < n) :
    scanLoop env n b (f + 1) i tu tun L C Ws =
      some (.done tu tun L C Ws) := by
  rw [scanLoop_succ, if_neg hin]

lemma scanLoop_step_fatal (env : Env κ α) (n b f i tu tun : Nat)
    (L Ws : List (Nat × Nat × Nat × Nat)) (C : List (List α))
    (hin : i < n)
    (hws : windowStep env i
      (if (i + b) % W > n then n else (i + b) % W) = .fatal) :
    scanLoop env n b (f + 1) i tu tun L C Ws = some .fatal := by
  rw [scanLoop_succ, if_pos hin, hws]

lemma scanLoop_step_ok (env : Env κ α) (n b f i tu tun u v : Nat)
    (L Ws : List (Nat × Nat × Nat × Nat)) (C : List (List α)) (l : List α)
    (hin : i < n)
    (hws : windowStep env i
      (if (i + b) % W > n then n else (i + b) % W) = .ok u v l) :
    scanLoop env n b (f + 1) i tu tun L C Ws =
      scanLoop env n b f ((i + b) % W) ((tu + u) % W) ((tun + v) % W)
        (if b = n then L
         else L ++ [(i, if (i + b) % W > n then n else (i + b) % W, u, v)])
        (C ++ [l])
        (Ws ++ [(i, if (i + b) % W > n then n else (i + b) % W, u, v)]) := by
  rw [scanLoop_succ, if_pos hin, hws]

lemma scanLoop_done_of_ge (env : Env κ α) (n b fuel i tu tun : Nat)
    (L Ws : List (Nat × Nat × Nat × Nat)) (C : List (List α))
    (hf : 1 ≤ fuel) (hin : ¬ i < n) :
    scanLoop env n b fuel i tu tun L C Ws = some (.done tu tun L C Ws) := by
  cases fuel with
  | zero => omega
  | succ f => exact scanLoop_step_done env n b f i tu tun L Ws C hin

lemma scan_term (env : Env κ α) (n b : Nat) (hb : 1 ≤ b) (hw : n + b ≤ W) :
    ∀ fuel i tu tun L C Ws, n - i < fuel →
      (scanLoop env n b fuel i tu tun L C Ws).isSome = true := by
  intro fuel
  induction fuel with
  | zero => intro i tu tun L C Ws h; omega
  | succ f ih =>
    intro i tu tun L C Ws h
    by_cases hin : i < n
    · rcases hws : windowStep env i
          (if (i + b) % W > n then n else (i + b) % W) with _ | ⟨u, v, l⟩
      · rw [scanLoop_step_fatal env n b f i tu tun L Ws C hin hws]
        rfl
      · rw [scanLoop_step_ok env n b f i tu tun u v L Ws C l hin hws]
        have hmod : (i + b) % W = i + b := Nat.mod_eq_of_lt (by omega)
        rw [hmod]
        exact ih (i + b) _ _ _ _ _ (by omega)
    · rw [scanLoop_step_done env n b f i tu tun L Ws C hin]
      rfl

lemma scan_lines (env : Env κ α) (n b : Nat) :
    ∀ fuel i tu tun L C Ws TU TUN L2 C2 W2,
      scanLoop env n b fuel i tu tun L C Ws = some (.done TU TUN L2 C2 W2) →
      ∃ ws, W2 = Ws ++ ws ∧ L2 = (if b = n then L else L ++ ws) := by
  intro fuel
  induction fuel with
  | zero =>
    intro i tu tun L C Ws TU TUN L2 C2 W2 h
    exact absurd h (by rw [scanLoop_zero]; simp)
  | succ f ih =>
    intro i tu tun L C Ws TU TUN L2 C2 W2 h
    by_cases hin : i < n
    · rcases hws : windowStep env i
          (if (i + b) % W > n then n else (i + b) % W) with _ | ⟨u, v, l⟩
      · rw [scanLoop_step_fatal env n b f i tu tun L Ws C hin hws] at h
        exact absurd h (by simp)
      · rw [scanLoop_step_ok env n b f i tu tun u v L Ws C l hin hws] at h
        obtain ⟨ws, hW, hL⟩ := ih _ _ _ _ _ _ _ _ _ _ _ h
        refine ⟨(i, if (i + b) % W > n then n else (i + b) % W, u, v) :: ws,
          ?_, ?_⟩
        · rw [hW, List.append_assoc, List.singleton_append]
        · by_cases hbn : b = n
          · rw [hL]; simp [hbn]
          · rw [hL]; simp [hbn, List.append_assoc]
    · rw [scanLoop_step_done env n b f i tu tun L Ws C hin] at h
      simp only [Option.some_inj, ScanOut.done.injEq] at h
      obtain ⟨rfl, rfl, rfl, rfl, rfl⟩ := h
      exact ⟨[], by simp, by by_cases hbn : b = n <;> simp [hbn]⟩

lemma scan_sum (env : Env κ α) (n b : Nat) (hb : 1 ≤ b) (hw : n + b ≤ W) :
    ∀ fuel i tu tun L C Ws TU TUN L2 C2 W2,
      tu + tun + countValid env i n < W →
      scanLoop env n b fuel i tu tun L C Ws = some (.done TU TUN L2 C2 W2) →
      ∃ ws, W2 = Ws ++ ws ∧
        TU = tu + (ws.map (fun w => w.2.2.1)).sum ∧
        TUN = tun + (ws.map (fun w => w.2.2.2)).sum ∧
        (∀ w ∈ ws, w.2.2.1 + w.2.2.2 = countValid env w.1 w.2.1) ∧
        TU + TUN = tu + tun + countValid env i n := by
  intro fuel
  induction fuel with
  | zero =>
    intro i tu tun L C Ws TU TUN L2 C2 W2 hbound h
    exact absurd h (by rw [scanLoop_zero]; simp)
  | succ f ih =>
    intro i tu tun L C Ws TU TUN L2 C2 W2 hbound h
    by_cases hin : i < n
    · rcases hws : windowStep env i
          (if (i + b) % W > n then n else (i + b) % W) with _ | ⟨u, v, l⟩
      · rw [scanLoop_step_fatal env n b f i tu tun L Ws C hin hws] at h
        exact absurd h (by simp)
      · rw [scanLoop_step_ok env n b f i tu tun u v L Ws C l hin hws] at h
        have hmod : (i + b) % W = i + b := Nat.mod_eq_of_lt (by omega)
        rw [hmod] at hws h
        have him : i ≤ (if i + b > n then n else i + b) ∧
            (if i + b > n then n else i + b) ≤ n := by
          split <;> omega
        have hcv : u + v =
            countValid env i (if i + b > n then n else i + b) :=
          (windowStep_counts env i _ u v l hws).2
        have hsplit : countValid env i n =
            countValid env i (if i + b > n then n else i + b) +
            countValid env (if i + b > n then n else i + b) n :=
          countValid_split env i _ n him.1 him.2
        have hrest : countValid env (i + b) n =
            countValid env (if i + b > n then n else i + b) n := by
          split
          · rw [countValid_nil env (i + b) n (by omega),
              countValid_nil env n n (le_refl n)]
          · rfl
        have hmodu : (tu + u) % W = tu + u := Nat.mod_eq_of_lt (by omega)
        have hmodv : (tun + v) % W = tun + v := Nat.mod_eq_of_lt (by omega)
        rw [hmodu, hmodv] at h
        have hb2 : (tu + u) + (tun + v) + countValid env (i + b) n < W := by
          omega
        obtain ⟨ws, hW, hTU, hTUN, hwp, hsum⟩ :=
          ih _ _ _ _ _ _ _ _ _ _ _ hb2 h
        refine ⟨(i, if i + b > n then n else i + b, u, v) :: ws,
          ?_, ?_, ?_, ?_, ?_⟩
        · rw [hW, List.append_assoc, List.singleton_append]
        · simp only [List.map_cons, List.sum_cons]; omega
        · simp only [List.map_cons, List.sum_cons]; omega
        · intro w hwmem
          rcases List.mem_cons.mp hwmem with rfl | hwmem
          · exact hcv
          · exact hwp w hwmem
        · omega
    · rw [scanLoop_step_done env n b f i tu tun L Ws C hin] at h
      simp only [Option.some_inj, ScanOut.done.injEq] at h
      obtain ⟨rfl, rfl, rfl, rfl, rfl⟩ := h
      refine ⟨[], by simp, by simp, by simp, by simp, ?_⟩
      rw [countValid_nil env i n (by omega)]
      omega

lemma scan_oracle (childF : Nat → ChildOutcome κ) (addrF : κ → Option α)
    (p : α → Bool) (n b : Nat) (hb : 1 ≤ b) (hw : n + b ≤ W) :
    ∀ fuel i tu tun L C Ws, n - i < fuel →
      (∀ j ∈ List.range' i (n - i), fatalAt childF addrF j = false) →
      tu + tun + (batchOf childF addrF (List.range' i (n - i))).length < W →
      doneTotals
        (scanLoop (oracleEnv childF addrF p) n b fuel i tu tun L C Ws) =
      some (tu + (batchOf childF addrF (List.range' i (n - i))).countP p,
        tun + ((batchOf childF addrF (List.range' i (n - i))).length -
          (batchOf childF addrF (List.range' i (n - i))).countP p)) := by
  intro fuel
  induction fuel with
  | zero => intro i tu tun L C Ws h hf hbound; omega
  | succ f ih =>
    intro i tu tun L C Ws h hf hbound
    by_cases hin : i < n
    case neg =>
      rw [scanLoop_step_done (oracleEnv childF addrF p) n b f i tu tun
        L Ws C hin]
      have h0 : n - i = 0 := by omega
      rw [h0]
      simp [doneTotals, batchOf]
    case pos =>
      have hmod : (i + b) % W = i + b := Nat.mod_eq_of_lt (by omega)
      have him : i ≤ (if i + b > n then n else i + b) ∧
          (if i + b > n then n else i + b) ≤ n := by
        split <;> omega
      have hRsplit : List.range' i (n - i) =
          List.range' i ((if i + b > n then n else i + b) - i) ++
          List.range' (if i + b > n then n else i + b)
            (n - (if i + b > n then n else i + b)) :=
        range'_split i _ n him.1 him.2
      have hfw : ∀ j ∈ List.range' i ((if i + b > n then n else i + b) - i),
          fatalAt childF addrF j = false := by
        intro j hj
        exact hf j (by rw [hRsplit]; exact List.mem_append_left _ hj)
      have hws := windowStep_oracle childF addrF p i
        (if i + b > n then n else i + b) hfw
      rw [scanLoop_step_ok (oracleEnv childF addrF p) n b f i tu tun _ _
        L Ws C _ hin (by rw [hmod]; exact hws)]
      rw [hmod]
      have hrest : List.range' (i + b) (n - (i + b)) =
          List.range' (if i + b > n then n else i + b)
            (n - (if i + b > n then n else i + b)) := by
        split
        · rw [show n - (i + b) = 0 from by omega, show n - n = 0 from by omega,
            List.range'_zero, List.range'_zero]
        · rfl
      have hBsplit : batchOf childF addrF (List.range' i (n - i)) =
          batchOf childF addrF
            (List.range' i ((if i + b > n then n else i + b) - i)) ++
          batchOf childF addrF
            (List.range' (if i + b > n then n else i + b)
              (n - (if i + b > n then n else i + b))) := by
        rw [batchOf, hRsplit, List.filterMap_append]
        rfl
      have hc1 : (batchOf childF addrF
          (List.range' i ((if i + b > n then n else i + b) - i))).countP p ≤
          (batchOf childF addrF
            (List.range' i ((if i + b > n then n else i + b) - i))).length :=
        List.countP_le_length p
      have hc2 : (batchOf childF addrF
          (List.range' (if i + b > n then n else i + b)
            (n - (if i + b > n then n else i + b)))).countP p ≤
          (batchOf childF addrF
            (List.range' (if i + b > n then n else i + b)
              (n - (if i + b > n then n else i + b)))).length :=
        List.countP_le_length p
      have hlen : (batchOf childF addrF (List.range' i (n - i))).length =
          (batchOf childF addrF
            (List.range' i ((if i + b > n then n else i + b) - i))).length +
          (batchOf childF addrF
            (List.range' (if i + b > n then n else i + b)
              (n - (if i + b > n then n else i + b)))).length := by
        rw [hBsplit, List.length_append]
      have hcp : (batchOf childF addrF (List.range' i (n - i))).countP p =
          (batchOf childF addrF
            (List.range' i ((if i + b > n then n else i + b) - i))).countP p +
          (batchOf childF addrF
            (List.range' (if i + b > n then n else i + b)
              (n - (if i + b > n then n else i + b)))).countP p := by
        rw [hBsplit, List.countP_append]
      have hmodu : (tu + (batchOf childF addrF
          (List.range' i ((if i + b > n then n else i + b) - i))).countP p)
          % W = tu + (batchOf childF addrF
          (List.range' i ((if i + b > n then n else i + b) - i))).countP p :=
        Nat.mod_eq_of_lt (by omega)
      have hmodv : (tun + ((batchOf childF addrF
          (List.range' i ((if i + b > n then n else i + b) - i))).length -
          (batchOf childF addrF
          (List.range' i ((if i + b > n then n else i + b) - i))).countP p))
          % W = tun + ((batchOf childF addrF
          (List.range' i ((if i + b > n then n else i + b) - i))).length -
          (batchOf childF addrF
          (List.range' i ((if i + b > n then n else i + b) - i))).countP p) :=
        Nat.mod_eq_of_lt (by omega)
      rw [hmodu, hmodv]
      refine Eq.trans (ih (i + b) _ _ _ _ _ (by omega) ?_ ?_) ?_
      · rw [hrest]
        intro j hj
        exact hf j (by rw [hRsplit]; exact List.mem_append_right _ hj)
      · rw [hrest]
        omega
      · rw [hrest]
        simp only [Option.some_inj, Prod.mk.injEq]
        constructor <;> omega

lemma scan_cycle :
    ∀ fuel i tu tun L C Ws, i = 0 ∨ i = 2147483648 →
      scanLoop (okEnv (fun _ => false)) 2147483649 2147483648 fuel
        i tu tun L C Ws = none := by
  intro fuel
  induction fuel with
  | zero => intro i tu tun L C Ws hi; rfl
  | succ f ih =>
    intro i tu tun L C Ws hi
    have hmx0 : (if ((0:Nat) + 2147483648) % W > 2147483649 then 2147483649
        else (0 + 2147483648) % W) = 2147483648 := by decide
    have hmx1 : (if ((2147483648:Nat) + 2147483648) % W > 2147483649
        then 2147483649 else (2147483648 + 2147483648) % W) = 0 := by decide
    rcases hi with rfl | rfl
    · rw [scanLoop_step_ok (okEnv (fun _ => false)) 2147483649 2147483648 f
        0 tu tun _ _ L Ws C _ (by decide)
        (by rw [hmx0]; exact windowStep_okEnv (fun _ => false) 0 2147483648)]
      rw [show ((0:Nat) + 2147483648) % W = 2147483648 from by decide]
      exact ih _ _ _ _ _ _ (Or.inr rfl)
    · rw [scanLoop_step_ok (okEnv (fun _ => false)) 2147483649 2147483648 f
        2147483648 tu tun _ _ L Ws C _ (by decide)
        (by rw [hmx1]; exact windowStep_okEnv (fun _ => false) 2147483648 0)]
      rw [show ((2147483648:Nat) + 2147483648) % W = 0 from by decide]
      exact ih _ _ _ _ _ _ (Or.inl rfl)

lemma branchStats_zero_oracle (childF : Nat → ChildOutcome κ)
    (addrF : κ → Option α) (p : α → Bool) (n : Nat) (hnW : n < W)
    (hf : ∀ j ∈ List.range' 0 n, fatalAt childF addrF j = false) :
    doneTotals (branchStats (oracleEnv childF addrF p) n 0 0) =
      some ((batchOf childF addrF (List.range' 0 n)).countP p,
        (batchOf childF addrF (List.range' 0 n)).length -
          (batchOf childF addrF (List.range' 0 n)).countP p) := by
  unfold branchStats
  rw [show (oracleEnv childF addrF p).branchFail = false from rfl]
  rw [if_neg (by simp)]
  rw [if_pos rfl]
  by_cases hn : n = 0
  · subst hn
    rw [scanLoop_step_done (oracleEnv childF addrF p) 0 0 0 0 0 0
      [] [] [] (by omega)]
    simp [doneTotals, batchOf]
  · have hn1 : 0 < n := Nat.pos_of_ne_zero hn
    have hmx : (if ((0:Nat) + n) % W > n then n else (0 + n) % W) = n := by
      rw [Nat.zero_add, Nat.mod_eq_of_lt hnW]
      simp
    have hws := windowStep_oracle childF addrF p 0 n
      (by rw [Nat.sub_zero]; exact hf)
    rw [scanLoop_step_ok (oracleEnv childF addrF p) n n n 0 0 0 _ _
      [] [] [] _ hn1 (by rw [hmx]; exact hws)]
    rw [show ((0:Nat) + n) % W = n from by rw [Nat.zero_add,
      Nat.mod_eq_of_lt hnW]]
    rw [scanLoop_done_of_ge (oracleEnv childF addrF p) n n n n _ _
      _ _ _ (by omega) (by omega)]
    have hcle : (batchOf childF addrF (List.range' 0 (n - 0))).countP p ≤
        (batchOf childF addrF (List.range' 0 (n - 0))).length :=
      List.countP_le_length p
    have hlle : (batchOf childF addrF (List.range' 0 (n - 0))).length ≤ n := by
      have h1 : (batchOf childF addrF (List.range' 0 (n - 0))).length ≤
          (List.range' 0 (n - 0)).length := List.length_filterMap_le _ _
      rw [List.length_range'] at h1
      omega
    rw [show ((0:Nat) + (batchOf childF addrF
        (List.range' 0 (n - 0))).countP p) % W =
        (batchOf childF addrF (List.range' 0 (n - 0))).countP p from by
      rw [Nat.zero_add]; exact Nat.mod_eq_of_lt (by omega)]
    rw [show ((0:Nat) + ((batchOf childF addrF
        (List.range' 0 (n - 0))).length -
        (batchOf childF addrF (List.range' 0 (n - 0))).countP p)) % W =
        (batchOf childF addrF (List.range' 0 (n - 0))).length -
        (batchOf childF addrF (List.range' 0 (n - 0))).countP p from by
      rw [Nat.zero_add]; exact Nat.mod_eq_of_lt (by omega)]
    rw [Nat.sub_zero]
    rfl

lemma scanLoop_step_ok_pos (env : Env κ α) (n b fuel i tu tun u v : Nat)
    (L Ws : List (Nat × Nat × Nat × Nat)) (C : List (List α)) (l : List α)
    (hf : 1 ≤ fuel) (hin : i < n)
    (hws : windowStep env i
      (if (i + b) % W > n then n else (i + b) % W) = .ok u v l) :
    scanLoop env n b fuel i tu tun L C Ws =
      scanLoop env n b (fuel - 1) ((i + b) % W) ((tu + u) % W)
        ((tun + v) % W)
        (if b = n then L
         else L ++ [(i, if (i + b) % W > n then n else (i + b) % W, u, v)])
        (C ++ [l])
        (Ws ++ [(i, if (i + b) % W > n then n else (i + b) % W, u, v)]) := by
  cases fuel with
  | zero => omega
  | succ f =>
    rw [Nat.succ_sub_one]
    exact scanLoop_step_ok env n b f i tu tun u v L Ws C l hin hws

lemma buildAddrs_all_invalid (env : Env κ α) (R : List Nat)
    (h : ∀ j ∈ R, env.child j = .invalidChild) :
    buildAddrs env R = some [] := by
  induction R with
  | nil => rfl
  | cons j js ih =>
    have hj := h j (List.mem_cons_self j js)
    simp [buildAddrs, hj, ih (fun x hx => h x (List.mem_cons_of_mem j hx))]

lemma batchOf_length_le (childF : Nat → ChildOutcome κ)
    (addrF : κ → Option α) (R : List Nat) :
    (batchOf childF addrF R).length ≤ R.length :=
  List.length_filterMap_le _ _

lemma branchStats_eq_scanLoop (env : Env κ α) (n begin bucket : Nat)
    (h : env.branchFail = false) :
    branchStats env n begin bucket =
      scanLoop env n (if bucket = 0 then n else bucket) (n + 1)
        begin 0 0 [] [] [] := by
  unfold branchStats
  rw [h]
  simp

lemma branchStats_zero_okEnv (p : Nat → Bool) (n : Nat) (hnW : n < W) :
    doneTotals (branchStats (okEnv p) n 0 0) =
      some ((List.range' 0 n).countP p, n - (List.range' 0 n).countP p) := by
  have h := branchStats_zero_oracle ChildOutcome.ok some p n hnW
    (fun j _ => rfl)
  rw [batchOf_ok, List.length_range'] at h
  exact h

/-- Claim C1 (amended): when every index of a window is classified
InvalidChild, the window's address batch is empty, and the UsedAddresses
query IS STILL ISSUED, with the empty batch (branchStats does not skip
the call); provided that query succeeds, the window records zero used
and zero unused and no error is raised. -/
theorem claimC1 (env : Env Nat Nat) (lo hi : Nat)
    (h : ∀ j ∈ List.range' lo (hi - lo),
      env.child j = ChildOutcome.invalidChild) :
    buildAddrs env (List.range' lo (hi - lo)) = some [] ∧
    ∀ bits, env.query [] = some bits →
      windowStep env lo hi = StepOut.ok 0 0 [] := by
  have hb := buildAddrs_all_invalid env (List.range' lo (hi - lo)) h
  refine ⟨hb, ?_⟩
  intro bits hq
  simp [windowStep, hb, hq, countUsage]

/-- Witness for claimC1 at a concrete window [5, 7) whose two indices
are both invalid children. -/
theorem claimC1_witness :
    buildAddrs envInv (List.range' 5 2) = some [] ∧
    windowStep envInv 5 7 = StepOut.ok 0 0 [] := by
  have h := claimC1 envInv 5 7 (by decide)
  exact ⟨h.1, h.2 (fun _ => false) rfl⟩

/-- Claim C1 counterexample: with every index of the single window [0, 2)
an invalid child, the completed scan records exactly one UsedAddresses
call, whose batch is the empty list — the remote service IS contacted
for the all-invalid window, contradicting the claim that the query is
not issued at all.  (The window does record zero used and zero unused.) -/
theorem claimC1_counterexample :
    branchStats envInv 2 0 0 =
      some (ScanOut.done 0 0 [] [[]] [(0, 2, 0, 0)]) ∧
    ([[]] : List (List Nat)) ≠ [] := by
  constructor
  · decide
  · decide

/-- Claim C2 (code bug): with a configuration that passes every flag
validation and an environment whose UsedAddresses query fails with a
transport error, usage.stats returns an error (some false), yet main
ignores the result of u.stats(ctx) and the process exits with status 0
instead of a non-zero status. -/
theorem claimC2 :
    statsRun cfgBad envQueryErr envQueryErr = some false ∧
    mainExit cfgBad envQueryErr envQueryErr = some 0 := by
  constructor
  · decide
  · decide

/-- Claim C4 (confirmed): within a window, an index whose derivation is
classified ErrInvalidChild is skipped — not appended to the batch, the
scan continues with the remaining indices — while a non-InvalidChild
derivation error or an address-encoding error makes the batch
construction fail, which makes the window step fatal, which makes the
whole branch scan return the error to its caller. -/
theorem claimC4 :
    (∀ (env : Env Nat Nat) j js, env.child j = ChildOutcome.invalidChild →
      buildAddrs env (j :: js) = buildAddrs env js) ∧
    (∀ (env : Env Nat Nat) j js, env.child j = ChildOutcome.err →
      buildAddrs env (j :: js) = none) ∧
    (∀ (env : Env Nat Nat) j js k, env.child j = ChildOutcome.ok k →
      env.addr k = none → buildAddrs env (j :: js) = none) ∧
    (∀ (env : Env Nat Nat) lo hi,
      buildAddrs env (List.range' lo (hi - lo)) = none →
      windowStep env lo hi = StepOut.fatal) ∧
    (∀ (env : Env Nat Nat) n b fuel i tu tun L C Ws, i < n →
      windowStep env i (if (i + b) % W > n then n else (i + b) % W) =
        StepOut.fatal →
      scanLoop env n b (fuel + 1) i tu tun L C Ws = some ScanOut.fatal) := by
  refine ⟨?_, ?_, ?_, ?_, ?_⟩
  · intro env j js h
    simp [buildAddrs, h]
  · intro env j js h
    simp [buildAddrs, h]
  · intro env j js k h hk
    simp [buildAddrs, h, hk]
  · intro env lo hi h
    unfold windowStep
    rw [h]
  · intro env n b fuel i tu tun L C Ws hin hws
    exact scanLoop_step_fatal env n b fuel i tu tun L Ws C hin hws

/-- Witness for claimC4: the skip equation on an invalid child, batch
failure on a fatal derivation error and on an encoding error, the fatal
window step, and the aborted scan, all at concrete inputs. -/
theorem claimC4_witness :
    buildAddrs envInv (0 :: [1]) = buildAddrs envInv [1] ∧
    buildAddrs envChildErr (0 :: [1]) = none ∧
    buildAddrs envAddrNone (0 :: [1]) = none ∧
    windowStep envChildErr 0 2 = StepOut.fatal ∧
    scanLoop envChildErr 2 1 1 0 0 0 [] [] [] = some ScanOut.fatal :=
  ⟨claimC4.1 envInv 0 [1] rfl, claimC4.2.1 envChildErr 0 [1] rfl,
    claimC4.2.2.1 envAddrNone 0 [1] 0 rfl rfl,
    claimC4.2.2.2.1 envChildErr 0 2 (by decide),
    claimC4.2.2.2.2 envChildErr 2 1 0 0 0 0 [] [] [] (by decide) (by decide)⟩

/-- Claim C5 (confirmed): when a window's batch after skipping invalid
children has length k and the query succeeds, the returned bitset is
read positionally over exactly the k batch positions: used is the
number of set bits among positions 0..k-1, unused is the rest, and
used + unused = k.  Moreover the count depends only on the bitset's
values at positions below k, not on the original raw index range. -/
theorem claimC5 :
    (∀ (env : Env Nat Nat) lo hi l bits,
      buildAddrs env (List.range' lo (hi - lo)) = some l →
      env.query l = some bits →
      windowStep env lo hi =
        StepOut.ok ((List.range l.length).countP bits)
          (l.length - (List.range l.length).countP bits) l ∧
      (List.range l.length).countP bits +
        (l.length - (List.range l.length).countP bits) = l.length) ∧
    (∀ bits bits' k, (∀ j, j < k → bits j = bits' j) →
      countUsage bits k = countUsage bits' k) := by
  constructor
  · intro env lo hi l bits hb hq
    have hf := countUsage_fst bits l.length
    have hs := countUsage_sum bits l.length
    have hle : (List.range l.length).countP bits ≤ l.length := by
      have h1 : (List.range l.length).countP bits ≤
          (List.range l.length).length := List.countP_le_length bits
      rw [List.length_range] at h1
      omega
    constructor
    · have h1 : windowStep env lo hi = StepOut.ok
          (countUsage bits l.length).1 (countUsage bits l.length).2 l := by
        simp [windowStep, hb, hq]
      rw [h1]
      simp only [StepOut.ok.injEq]
      exact ⟨by omega, by omega, trivial⟩
    · omega
  · exact countUsage_congr

/-- Witness for claimC5 at a window [0, 2) with batch [0, 1] and a
bitset that sets exactly position 0. -/
theorem claimC5_witness :
    windowStep envW5 0 2 = StepOut.ok 1 1 [0, 1] ∧ (1 : Nat) + 1 = 2 := by
  refine ⟨?_, by norm_num⟩
  have h := claimC5.1 envW5 0 2 [0, 1] (fun j => j == 0) (by decide) rfl
  have hcp : (List.range ([0, 1] : List Nat).length).countP
      (fun j => j == 0) = 1 := by decide
  rw [h.1, hcp]
  decide

/-- Claim C7 (confirmed): the per-window output lines of a completed
branch scan are exactly the processed windows when the effective window
size differs from n, and empty — suppressed — when the effective window
size equals n (which is the case whenever bucketSize was 0 and the
range was collapsed to a single window); in particular n = 5, begin = 3,
bucketSize = 0 processes the single window [3, 5) and prints no
per-window line, only the totals. -/
theorem claimC7 :
    (∀ (env : Env Nat Nat) n begin bucket TU TUN L C Ws,
      branchStats env n begin bucket = some (ScanOut.done TU TUN L C Ws) →
      L = (if (if bucket = 0 then n else bucket) = n then [] else Ws)) ∧
    branchStats (okEnv (fun _ => true)) 5 3 0 =
      some (ScanOut.done 2 0 [] [[3, 4]] [(3, 5, 2, 0)]) := by
  constructor
  · intro env n begin bucket TU TUN L C Ws h
    unfold branchStats at h
    by_cases hbf : env.branchFail = true
    · rw [if_pos hbf] at h
      exact absurd h (by simp)
    · rw [if_neg hbf] at h
      obtain ⟨ws, hW, hL⟩ := scan_lines env n _ (n + 1) begin 0 0 [] [] []
        TU TUN L C Ws h
      rw [List.nil_append] at hW
      subst hW
      rw [hL]
      simp
  · decide

/-- Witness for claimC7: the n = 5, begin = 3, bucketSize = 0 run
emitted no per-window line. -/
theorem claimC7_witness :
    ([] : List (Nat × Nat × Nat × Nat)) =
      (if (if (0 : Nat) = 0 then 5 else 0) = 5 then []
       else [((3 : Nat), (5 : Nat), (2 : Nat), (0 : Nat))]) :=
  claimC7.1 (okEnv (fun _ => true)) 5 3 0 2 0 [] [[3, 4]]
    [(3, 5, 2, 0)] (by decide)

/-- Claim C9 (confirmed): a branch with zero valid addresses completes
without crashing.  For n = begin the scan returns totals (0, 0) with no
windows, no queries and no error, and the totals ratio 0/0 — a float64
division — is the non-finite NaN value (none), not an abort; likewise a
window whose batch is empty gets counts (0, 0) and a per-window ratio
0/0 that is NaN (none), not an abort. -/
theorem claimC9 :
    (∀ (env : Env Nat Nat) n bucket, env.branchFail = false →
      branchStats env n n bucket = some (ScanOut.done 0 0 [] [] []) ∧
      ratioQ 0 ((0 + 0) % W) = none) ∧
    (∀ (env : Env Nat Nat) lo hi bits,
      buildAddrs env (List.range' lo (hi - lo)) = some [] →
      env.query [] = some bits →
      windowStep env lo hi = StepOut.ok 0 0 [] ∧
      ratioQ 0 (List.length ([] : List Nat)) = none) := by
  constructor
  · intro env n bucket hbf
    constructor
    · unfold branchStats
      rw [hbf]
      simp only [Bool.false_eq_true, if_false]
      exact scanLoop_done_of_ge env n _ (n + 1) n 0 0 [] [] []
        (by omega) (by omega)
    · rfl
  · intro env lo hi bits hb hq
    refine ⟨?_, rfl⟩
    simp [windowStep, hb, hq, countUsage]

/-- Witness for claimC9 at n = begin = 4 and at a window whose batch is
empty because all its indices are invalid children. -/
theorem claimC9_witness :
    branchStats (okEnv (fun _ => true)) 4 4 2 =
      some (ScanOut.done 0 0 [] [] []) ∧
    ratioQ 0 ((0 + 0) % W) = none ∧
    windowStep envInv 8 10 = StepOut.ok 0 0 [] := by
  have h1 := claimC9.1 (okEnv (fun _ => true)) 4 2 rfl
  have h2 := claimC9.2 envInv 8 10 (fun _ => false) (by decide) rfl
  exact ⟨h1.1, h1.2, h2.1⟩

/-- Claim C3 (amended): provided the effective bucket does not make the
uint32 loop arithmetic wrap (n plus the effective bucket is at most
2^32), every completed branch scan satisfies: each processed window's
used + unused equals the number of its indices not classified
InvalidChild, the branch totals are the component-wise sums over the
windows, and total used + unused equals the number of indices in
[begin, n) not classified InvalidChild. -/
theorem claimC3 (env : Env Nat Nat) (n begin bucket TU TUN : Nat)
    (L Ws : List (Nat × Nat × Nat × Nat)) (C : List (List Nat))
    (hb : 1 ≤ (if bucket = 0 then n else bucket))
    (hw : n + (if bucket = 0 then n else bucket) ≤ W)
    (h : branchStats env n begin bucket = some (ScanOut.done TU TUN L C Ws)) :
    (∀ w ∈ Ws, w.2.2.1 + w.2.2.2 = countValid env w.1 w.2.1) ∧
    TU = (Ws.map (fun w => w.2.2.1)).sum ∧
    TUN = (Ws.map (fun w => w.2.2.2)).sum ∧
    TU + TUN = countValid env begin n := by
  unfold branchStats at h
  by_cases hbf : env.branchFail = true
  · rw [if_pos hbf] at h
    exact absurd h (by simp)
  · rw [if_neg hbf] at h
    have hbound : 0 + 0 + countValid env begin n < W := by
      have h1 := countValid_le env begin n
      omega
    obtain ⟨ws, hW, hTU, hTUN, hwp, hsum⟩ :=
      scan_sum env n _ hb hw (n + 1) begin 0 0 [] [] [] TU TUN L C Ws
        hbound h
    rw [List.nil_append] at hW
    subst hW
    exact ⟨hwp, by omega, by omega, by omega⟩

/-- Witness for claimC3: a scan of [1, 4) with bucket 2 and odd/even
usage, whose totals 1 + 2 equal the 3 valid indices. -/
theorem claimC3_witness :
    (1 : Nat) + 2 = countValid (okEnv (fun a => a % 2 == 0)) 1 4 :=
  (claimC3 (okEnv (fun a => a % 2 == 0)) 4 1 2 1 2
    [(1, 3, 1, 1), (3, 4, 0, 1)] [(1, 3, 1, 1), (3, 4, 0, 1)] [[1, 2], [3]]
    (by decide) (by decide) (by decide)).2.2.2

/-- Claim C3 counterexample: with n = 2^31 + 2, begin = 0 and
bucket = 2^31 + 1, the uint32 window arithmetic wraps: the scan
terminates with totals (0, 1), although all 2^31 + 2 indices in
[0, n) are valid — used + unused does not equal the count of
non-InvalidChild indices, refuting the claim for arbitrary scans. -/
theorem claimC3_counterexample :
    doneTotals (branchStats (okEnv (fun _ => false)) 2147483650 0 2147483649)
      = some (0, 1) ∧
    countValid (okEnv (fun _ => false)) 0 2147483650 = 2147483650 ∧
    (0 + 1 : Nat) ≠ 2147483650 := by
  refine ⟨?_, ?_, by norm_num⟩
  · rw [branchStats_eq_scanLoop (okEnv (fun _ => false)) 2147483650 0
      2147483649 rfl, if_neg (by norm_num)]
    rw [scanLoop_step_ok_pos (okEnv (fun _ => false)) 2147483650 2147483649
      (2147483650 + 1) 0 0 0 _ _ [] [] [] _ (by norm_num) (by norm_num)
      (by rw [show (if ((0 : Nat) + 2147483649) % W > 2147483650
          then 2147483650 else (0 + 2147483649) % W) = 2147483649
          from by decide]
          exact windowStep_okEnv (fun _ => false) 0 2147483649)]
    simp only [countP_false_eq]
    norm_num [W]
    rw [scanLoop_step_ok_pos (okEnv (fun _ => false)) 2147483650 2147483649
      2147483650 2147483649 0 2147483649 _ _ _ _ _ _ (by norm_num)
      (by norm_num)
      (by rw [show (if ((2147483649 : Nat) + 2147483649) % W > 2147483650
          then 2147483650 else (2147483649 + 2147483649) % W) = 2
          from by decide]
          exact windowStep_okEnv (fun _ => false) 2147483649 2)]
    simp only [countP_false_eq]
    norm_num [W]
    rw [scanLoop_step_ok_pos (okEnv (fun _ => false)) 2147483650 2147483649
      2147483649 2 0 2147483649 _ _ _ _ _ _ (by norm_num) (by norm_num)
      (by rw [show (if ((2 : Nat) + 2147483649) % W > 2147483650
          then 2147483650 else (2 + 2147483649) % W) = 2147483650
          from by decide]
          exact windowStep_okEnv (fun _ => false) 2 2147483650)]
    simp only [countP_false_eq]
    norm_num [W]
    rw [scanLoop_done_of_ge (okEnv (fun _ => false)) 2147483650 2147483649
      2147483648 2147483651 0 1 _ _ _ (by norm_num) (by norm_num)]
    rfl
  · rw [countValid_ok]

/-- Claim C6 (amended): provided bucketSize is positive and
n + bucketSize does not exceed 2^32 (so the uint32 loop arithmetic
cannot wrap), and no index of [0, n) is fatal, a scan over [0, n) with
that bucketSize produces exactly the branch totals of the bucketSize = 0
scan, for every fixed per-address usage assignment. -/
theorem claimC6 (childF : Nat → ChildOutcome κ) (addrF : κ → Option α)
    (usedOf : α → Bool) (n b : Nat) (hb : 0 < b) (hw : n + b ≤ W)
    (hf : ∀ j ∈ List.range' 0 n, fatalAt childF addrF j = false) :
    doneTotals (branchStats (oracleEnv childF addrF usedOf) n 0 b) =
      doneTotals (branchStats (oracleEnv childF addrF usedOf) n 0 0) := by
  rw [branchStats_zero_oracle childF addrF usedOf n (by omega) hf]
  rw [branchStats_eq_scanLoop (oracleEnv childF addrF usedOf) n 0 b rfl]
  rw [if_neg (by omega)]
  have hlen : (batchOf childF addrF (List.range' 0 (n - 0))).length ≤
      n - 0 := by
    have h1 := batchOf_length_le childF addrF (List.range' 0 (n - 0))
    rw [List.length_range'] at h1
    exact h1
  have h := scan_oracle childF addrF usedOf n b (by omega) hw (n + 1) 0 0 0
    [] [] [] (by omega) (by rw [Nat.sub_zero]; exact hf) (by omega)
  rw [Nat.sub_zero] at h
  rw [h]
  simp

/-- Witness for claimC6 over [0, 3) with bucket 2 and usage exactly at
address 1. -/
theorem claimC6_witness :
    doneTotals (branchStats (oracleEnv ChildOutcome.ok some
      (fun a => a == 1)) 3 0 2) =
    doneTotals (branchStats (oracleEnv ChildOutcome.ok some
      (fun a => a == 1)) 3 0 0) :=
  claimC6 ChildOutcome.ok some (fun a => a == 1) 3 2 (by decide) (by decide)
    (fun j _ => rfl)

/-- Claim C6 counterexample: with n = 2^31 + 1 and bucketSize = 2^31 the
window loop wraps forever (i alternates 0, 2^31, 0, ...), so the scan
never produces branch totals, while the bucketSize = 0 scan of the very
same range and usage assignment terminates with totals (0, 2^31 + 1) —
the totals are not the same for every positive bucketSize. -/
theorem claimC6_counterexample :
    branchStats (okEnv (fun _ => false)) 2147483649 0 2147483648 = none ∧
    doneTotals (branchStats (okEnv (fun _ => false)) 2147483649 0 0) =
      some (0, 2147483649) ∧
    doneTotals (branchStats (okEnv (fun _ => false)) 2147483649 0 2147483648)
      ≠ doneTotals (branchStats (okEnv (fun _ => false)) 2147483649 0 0) := by
  have h1 : branchStats (okEnv (fun _ => false)) 2147483649 0 2147483648 =
      none := by
    rw [branchStats_eq_scanLoop (okEnv (fun _ => false)) 2147483649 0
      2147483648 rfl, if_neg (by norm_num)]
    exact scan_cycle (2147483649 + 1) 0 0 0 [] [] [] (Or.inl rfl)
  have h2 : doneTotals (branchStats (okEnv (fun _ => false)) 2147483649 0 0)
      = some (0, 2147483649) := by
    have h := branchStats_zero_okEnv (fun _ => false) 2147483649 (by decide)
    simp only [countP_false_eq] at h
    simpa using h
  refine ⟨h1, h2, ?_⟩
  rw [h1, h2]
  simp [doneTotals]

/-- Claim C8 (confirmed): for n = 10, begin = 0, bucketSize = 5 with the
even addresses used and the odd ones unused and no invalid children, the
scan reports window [0, 5) as 3 used / 2 unused, window [5, 10) as
2 used / 3 unused, and branch totals 5 used / 5 unused with ratio
5 / 10 = 0.500000. -/
theorem claimC8 :
    branchStats (okEnv (fun a => a % 2 == 0)) 10 0 5 =
      some (ScanOut.done 5 5 [(0, 5, 3, 2), (5, 10, 2, 3)]
        [[0, 1, 2, 3, 4], [5, 6, 7, 8, 9]]
        [(0, 5, 3, 2), (5, 10, 2, 3)]) ∧
    ratioQ 5 ((5 + 5) % W) = some (1 / 2) := by
  constructor
  · decide
  · rw [show ((5 : Nat) + 5) % W = 10 from by decide]
    rw [ratioQ, if_neg (by norm_num)]
    norm_num

/-- Claim C10 (confirmed): the window loop advances i by bucket in
wrapping uint32 arithmetic.  Whenever begin is at most n, the effective
bucket is at least 1 and n plus the effective bucket is at most 2^32,
the loop terminates within n + 1 iterations; and the no-overflow
precondition is necessary: at n = 2^31 + 1, begin = 0, bucket = 2^31 the
loop never terminates — for every iteration bound the loop is still
running. -/
theorem claimC10 :
    (∀ (env : Env Nat Nat) n begin bucket,
      begin ≤ n → 1 ≤ (if bucket = 0 then n else bucket) →
      n + (if bucket = 0 then n else bucket) ≤ W →
      (branchStats env n begin bucket).isSome = true) ∧
    (∀ fuel tu tun L C Ws,
      scanLoop (okEnv (fun _ => false)) 2147483649 2147483648 fuel
        0 tu tun L C Ws = none) := by
  constructor
  · intro env n begin bucket h1 h2 h3
    unfold branchStats
    by_cases hbf : env.branchFail = true
    · rw [if_pos hbf]
      rfl
    · rw [if_neg hbf]
      exact scan_term env n _ h2 h3 (n + 1) begin 0 0 [] [] [] (by omega)
  · intro fuel tu tun L C Ws
    exact scan_cycle fuel 0 tu tun L C Ws (Or.inl rfl)

/-- Witness for claimC10: the n = 5, begin = 3, bucketSize = 0 scan
terminates. -/
theorem claimC10_witness :
    (branchStats (okEnv (fun _ => true)) 5 3 0).isSome = true :=
  claimC10.1 (okEnv (fun _ => true)) 5 3 0 (by decide) (by decide)
    (by decide)

end Addrusage
